import Mathlib

/-!
Verification model of the `okkoi` reference-counted lifecycle coordinator
(`main.rs`).  The coordinator's observable actions are embedded as event
traces; the `ActorUnit` state keeps the two shared fields of the Rust
struct (`running: AtomicBool`, `count: AtomicUsize`).  `usize` is modelled
as a 64-bit machine integer: all count arithmetic is taken modulo
`USIZE = 2 ^ 64`, matching the wrapping semantics of
`AtomicUsize::fetch_add` / `fetch_sub`.

The semaphore (`Mutex<()>`) serializes every `acquire`/`release` call, so a
run of the coordinator is a sequence of whole calls; each call is embedded
as a state transformer that also emits the ordered list of events the call
performs, with explicit lock-acquire and lock-release events marking the
extent of the critical section.  The two spin-waits (`spawn` waiting for
`running` to become true, `abort` waiting for it to become false) are
embedded sequentially: the launched entry point's store of the flag, which
the spin-wait's termination witnesses, is folded into the completion of the
wait event.
-/

/-- Width of `usize` (modelled as 64-bit): count arithmetic wraps modulo this. -/
def USIZE : Nat := 2 ^ 64

/-- Observable events of a single `acquire`/`release` call on an `ActorUnit`.

* `lockAcq` / `lockRel`: taking and dropping the `semaphore` mutex guard.
* `countAdd pre`: `self.count.fetch_add(1, Relaxed)` returning pre-value `pre`.
* `countSub pre`: `self.count.fetch_sub(1, Relaxed)` returning pre-value `pre`.
* `launch`: the call `A1::spawn(Self::start, self)` (starting the context).
* `waitRunning b`: the spin-wait loop `while running != b { yield_now() }`.
* `requestStop`: the call `self.actor.abort()` (the stop request).
* `prepare`: a one-time setup hook run before launch.  The spec (and the
  repository's own test `check_no_race_with_setup`, whose actor defines a
  `setup` method inside its `impl Actor` block) expects such a hook, but the
  `Actor` trait in `main.rs` declares no such method and
  `ActorUnit::acquire`/`spawn` never invoke one, so no operation of this
  model ever emits it. -/
inductive Ev where
  | lockAcq
  | lockRel
  | countAdd (pre : Nat)
  | countSub (pre : Nat)
  | launch
  | waitRunning (b : Bool)
  | requestStop
  | prepare
  deriving DecidableEq, Repr

/-- The shared state of `ActorUnit<A1>`: the `running` flag and the `count`
reference counter.  The `semaphore` field is represented by the
`lockAcq`/`lockRel` events; the `actor` field is the opaque context. -/
structure ActorUnit where
  running : Bool
  count : Nat
  deriving DecidableEq, Repr

/-- `ActorUnit::spawn` (main.rs lines 70-77): call `A1::spawn(Self::start, self)`
and then spin-wait until `running` is true.  The launched entry's store
`running = true` (performed before it invokes the actor's body, see
`ActorUnit.start`) is folded into the completion of the wait. -/
def ActorUnit.spawn (s : ActorUnit) : ActorUnit × List Ev :=
  ({ s with running := true }, [Ev.launch, Ev.waitRunning true])

/-- `ActorUnit::abort` (main.rs lines 97-104): forward to `self.actor.abort()`
(the stop request) and then spin-wait until `running` is false.  The entry
point's final store `running = false` is folded into the completion of the
wait. -/
def ActorUnit.abort (s : ActorUnit) : ActorUnit × List Ev :=
  ({ s with running := false }, [Ev.requestStop, Ev.waitRunning false])

/-- `<ActorUnit as Unit>::acquire` (main.rs lines 111-116): under the
semaphore guard, `(self.count.fetch_add(1, Relaxed) == 0).then(spawn)`;
the guard is dropped only at the end of the call, after `spawn` returned. -/
def ActorUnit.acquire (s : ActorUnit) : ActorUnit × List Ev :=
  let pre := s.count
  let s1 : ActorUnit := { s with count := (pre + 1) % USIZE }
  let step := if pre = 0 then ActorUnit.spawn s1 else (s1, [])
  (step.1, Ev.lockAcq :: Ev.countAdd pre :: (step.2 ++ [Ev.lockRel]))

/-- `<ActorUnit as Unit>::release` (main.rs lines 118-123): under the
semaphore guard, `(self.count.fetch_sub(1, Relaxed) == 1).then(abort)`;
the guard is dropped only at the end of the call, after `abort` returned.
`fetch_sub(1)` wraps: the new count is `(pre + (USIZE - 1)) % USIZE`. -/
def ActorUnit.release (s : ActorUnit) : ActorUnit × List Ev :=
  let pre := s.count
  let s1 : ActorUnit := { s with count := (pre + (USIZE - 1)) % USIZE }
  let step := if pre = 1 then ActorUnit.abort s1 else (s1, [])
  (step.1, Ev.lockAcq :: Ev.countSub pre :: (step.2 ++ [Ev.lockRel]))

/-- The two calls of the `Unit` trait. -/
inductive Op where
  | acq
  | rel
  deriving DecidableEq, Repr

/-- Dispatch one `Unit` call on an `ActorUnit`. -/
def ActorUnit.runOp (s : ActorUnit) : Op → ActorUnit × List Ev
  | Op.acq => s.acquire
  | Op.rel => s.release

/-- Run a sequence of `acquire`/`release` calls (serialized by the
semaphore), accumulating the concatenated event trace. -/
def ActorUnit.runOps (s : ActorUnit) : List Op → ActorUnit × List Ev
  | [] => (s, [])
  | o :: os =>
    ((ActorUnit.runOps (ActorUnit.runOp s o).1 os).1,
     (ActorUnit.runOp s o).2 ++ (ActorUnit.runOps (ActorUnit.runOp s o).1 os).2)

/-- Number of `launch` events (calls to `A1::spawn`) in a trace. -/
def launches : List Ev → Nat
  | [] => 0
  | Ev.launch :: tl => launches tl + 1
  | _ :: tl => launches tl

/-- Number of `requestStop` events (calls to `Actor::abort`) in a trace. -/
def stops : List Ev → Nat
  | [] => 0
  | Ev.requestStop :: tl => stops tl + 1
  | _ :: tl => stops tl

/-- Steps performed by the entry point `ActorUnit::start`. -/
inductive SEv where
  | setRunning (b : Bool)
  | runBody
  | panicked (msg : String)
  deriving DecidableEq, Repr

/-- `ActorUnit::start` (main.rs lines 83-95), the `extern "C"` entry point
executed inside the launched context, as the ordered sequence of steps it
performs.  `countAtReturn` is the value `this.count.load(Relaxed)` observes
after the actor's body (`this.actor.start()`) returns: set `running = true`;
run the body; if the loaded count is nonzero, `panic!("actor exited early")`
(the store of `running = false` is placed after the check, so it is not
reached); otherwise store `running = false`. -/
def ActorUnit.start (countAtReturn : Nat) : List SEv :=
  SEv.setRunning true :: SEv.runBody ::
    (if countAtReturn ≠ 0 then [SEv.panicked "actor exited early"]
     else [SEv.setRunning false])

/-- Value of the `running` flag after a sequence of entry-point steps,
starting from flag value `b`. -/
def runningAfter (b : Bool) : List SEv → Bool
  | [] => b
  | SEv.setRunning b1 :: tl => runningAfter b1 tl
  | _ :: tl => runningAfter b tl

/-- Composition trees of `Unit` implementations: a `leaf i` is an individual
member unit (identified by `i`), `pair u1 u2` is the `impl Unit for (U1, U2)`
(main.rs lines 128-142), and `blueprint u` is the newtype
`Blueprint<U1>(U1)` whose `Unit` impl delegates to its field
(main.rs lines 164-175). -/
inductive UnitTree where
  | leaf (id : Nat)
  | pair (u1 u2 : UnitTree)
  | blueprint (u : UnitTree)
  deriving DecidableEq, Repr

/-- Order in which `acquire()` reaches the member units: on a pair,
`self.0.acquire()` then `self.1.acquire()`; a blueprint delegates to its
field. -/
def UnitTree.acquireOrder : UnitTree → List Nat
  | UnitTree.leaf i => [i]
  | UnitTree.pair u1 u2 => u1.acquireOrder ++ u2.acquireOrder
  | UnitTree.blueprint u => u.acquireOrder

/-- Order in which `release()` reaches the member units: on a pair,
`self.0.release()` then `self.1.release()` — the same fixed order as
`acquire`, not the reverse; a blueprint delegates to its field. -/
def UnitTree.releaseOrder : UnitTree → List Nat
  | UnitTree.leaf i => [i]
  | UnitTree.pair u1 u2 => u1.releaseOrder ++ u2.releaseOrder
  | UnitTree.blueprint u => u.releaseOrder

/-- `Blueprint::new` (main.rs lines 152-154): a chain holding exactly the
given unit. -/
def Blueprint.new (unit : UnitTree) : UnitTree := UnitTree.blueprint unit

/-- `Blueprint::register` (main.rs lines 156-161): `Blueprint((unit, self))` —
the newly registered unit is placed first, the entire previous chain second. -/
def Blueprint.register (self unit : UnitTree) : UnitTree :=
  UnitTree.blueprint (UnitTree.pair unit self)

/-- Last event of a trace, if any. -/
def lastEv : List Ev → Option Ev
  | [] => none
  | [e] => some e
  | _ :: e :: tl => lastEv (e :: tl)

/-- The member calls performed, in execution order, by running a sequence of
`acquire`/`release` calls on a composition tree: each element records which
operation reached which member unit. -/
def UnitTree.runSeq (u : UnitTree) (ops : List Op) : List (Op × Nat) :=
  ops.flatMap fun o =>
    match o with
    | Op.acq => u.acquireOrder.map fun i => (Op.acq, i)
    | Op.rel => u.releaseOrder.map fun i => (Op.rel, i)

/-! ### Basic facts about the model -/

theorem USIZE_pos : 0 < USIZE := by decide

theorem one_lt_USIZE : 1 < USIZE := by decide

theorem launches_append (t1 t2 : List Ev) :
    launches (t1 ++ t2) = launches t1 + launches t2 := by
  induction t1 with
  | nil => simp [launches]
  | cons e tl ih => cases e <;> simp [launches, ih] <;> omega

theorem stops_append (t1 t2 : List Ev) :
    stops (t1 ++ t2) = stops t1 + stops t2 := by
  induction t1 with
  | nil => simp [stops]
  | cons e tl ih => cases e <;> simp [stops, ih] <;> omega

/-- `acquire` from a zero count: launch, then wait for `running`. -/
theorem acquire_zero (r : Bool) :
    ActorUnit.acquire ⟨r, 0⟩ =
      (⟨true, 1⟩,
       [Ev.lockAcq, Ev.countAdd 0, Ev.launch, Ev.waitRunning true, Ev.lockRel]) := by
  simp [ActorUnit.acquire, ActorUnit.spawn, Nat.mod_eq_of_lt one_lt_USIZE]

/-- `acquire` from a nonzero count: count update only, no launch, no wait. -/
theorem acquire_pos (r : Bool) (k : Nat) (h : k ≠ 0) :
    ActorUnit.acquire ⟨r, k⟩ =
      (⟨r, (k + 1) % USIZE⟩, [Ev.lockAcq, Ev.countAdd k, Ev.lockRel]) := by
  simp [ActorUnit.acquire, h]

/-- `release` from count 1: stop request, then wait for `running` to clear. -/
theorem release_one (r : Bool) :
    ActorUnit.release ⟨r, 1⟩ =
      (⟨false, 0⟩,
       [Ev.lockAcq, Ev.countSub 1, Ev.requestStop, Ev.waitRunning false,
        Ev.lockRel]) := by
  have hm : (1 + (USIZE - 1)) % USIZE = 0 := by
    have h0 : 0 < USIZE := USIZE_pos
    rw [show 1 + (USIZE - 1) = USIZE by omega, Nat.mod_self]
  simp [ActorUnit.release, ActorUnit.abort, hm]

/-- `release` from a count other than 1: wrapping count update only. -/
theorem release_ne_one (r : Bool) (k : Nat) (h : k ≠ 1) :
    ActorUnit.release ⟨r, k⟩ =
      (⟨r, (k + (USIZE - 1)) % USIZE⟩, [Ev.lockAcq, Ev.countSub k, Ev.lockRel]) := by
  simp [ActorUnit.release, h]

/-- The wrapping decrement really decrements in the non-wrapping range. -/
theorem wrapSub_eq (k : Nat) (h1 : 1 ≤ k) (h2 : k < USIZE) :
    (k + (USIZE - 1)) % USIZE = k - 1 := by
  have h0 : 0 < USIZE := USIZE_pos
  rw [show k + (USIZE - 1) = (k - 1) + USIZE by omega, Nat.add_mod_right,
    Nat.mod_eq_of_lt (by omega)]

/-! ### Claim theorems -/

/-- C2: an `acquire()` call whose pre-increment count is greater than 0
issues no launch; `acquire()` reaches `spawn` (and hence `Actor::spawn`)
only when the value `fetch_add` returned was exactly 0. -/
theorem C2_no_double_launch (s : ActorUnit) (h : 0 < s.count) :
    Ev.launch ∉ (ActorUnit.acquire s).2 ∧
      ∀ t : ActorUnit, Ev.launch ∈ (ActorUnit.acquire t).2 → t.count = 0 := by
  constructor
  · obtain ⟨r, k⟩ := s
    rw [acquire_pos r k (by simpa using Nat.pos_iff_ne_zero.mp h)]
    simp
  · intro t ht
    by_contra hne
    obtain ⟨r, k⟩ := t
    rw [acquire_pos r k (by simpa using hne)] at ht
    simp at ht

/-- C2 witness: the theorem applied at the concrete state
(running, count) = (true, 5). -/
theorem C2_no_double_launch_witness :
    0 < (ActorUnit.mk true 5).count ∧
      (Ev.launch ∉ (ActorUnit.acquire ⟨true, 5⟩).2 ∧
        ∀ t : ActorUnit, Ev.launch ∈ (ActorUnit.acquire t).2 → t.count = 0) :=
  ⟨by decide, C2_no_double_launch ⟨true, 5⟩ (by decide)⟩

/-- C3: a `release()` call whose pre-decrement count is at least 2 (so the
post-decrement count is still positive) issues no stop request; `release()`
reaches `abort` (and hence `Actor::abort`, the stop request) only when the
value `fetch_sub` returned was exactly 1, i.e. when the count transitions
to 0. -/
theorem C3_no_premature_stop (s : ActorUnit) (h : 2 ≤ s.count) :
    Ev.requestStop ∉ (ActorUnit.release s).2 ∧
      ∀ t : ActorUnit, Ev.requestStop ∈ (ActorUnit.release t).2 → t.count = 1 := by
  constructor
  · obtain ⟨r, k⟩ := s
    rw [release_ne_one r k (by simp at h ⊢; omega)]
    simp
  · intro t ht
    by_contra hne
    obtain ⟨r, k⟩ := t
    rw [release_ne_one r k (by simpa using hne)] at ht
    simp at ht

/-- C3 witness: the theorem applied at the concrete state
(running, count) = (true, 2). -/
theorem C3_no_premature_stop_witness :
    2 ≤ (ActorUnit.mk true 2).count ∧
      (Ev.requestStop ∉ (ActorUnit.release ⟨true, 2⟩).2 ∧
        ∀ t : ActorUnit, Ev.requestStop ∈ (ActorUnit.release t).2 → t.count = 1) :=
  ⟨by decide, C3_no_premature_stop ⟨true, 2⟩ (by decide)⟩

/-- C4: the entry point first sets `running = true`, then invokes the
actor's body; when the body returns with a nonzero count the entry ends in
the panic step (fatal, not a silent clean stop), and the `running = false`
store is performed exactly when the observed count is 0. -/
theorem C4_entry_point (c : Nat) (h : c ≠ 0) :
    ActorUnit.start c =
        [SEv.setRunning true, SEv.runBody, SEv.panicked "actor exited early"] ∧
      (∀ k : Nat, (ActorUnit.start k).take 2 = [SEv.setRunning true, SEv.runBody]) ∧
      ∀ k : Nat, SEv.setRunning false ∈ ActorUnit.start k ↔ k = 0 := by
  refine ⟨by simp [ActorUnit.start, h], ?_, ?_⟩
  · intro k
    by_cases hk : k = 0 <;> simp [ActorUnit.start, hk]
  · intro k
    by_cases hk : k = 0 <;> simp [ActorUnit.start, hk]

/-- C4 witness: the theorem applied at the concrete observed count 1. -/
theorem C4_entry_point_witness :
    (1 : Nat) ≠ 0 ∧
      (ActorUnit.start 1 =
          [SEv.setRunning true, SEv.runBody, SEv.panicked "actor exited early"] ∧
        (∀ k : Nat, (ActorUnit.start k).take 2 =
          [SEv.setRunning true, SEv.runBody]) ∧
        ∀ k : Nat, SEv.setRunning false ∈ ActorUnit.start k ↔ k = 0) :=
  ⟨by decide, C4_entry_point 1 (by decide)⟩

/-- C10: on the unrequested-exit path (the entry point loads a nonzero
count after the body returns) the `running` flag is left true: the entry
trace ends in the panic step, contains no `running = false` store, and the
flag after the trace is still true, so a concurrent wait for
`running == false` is never satisfied by this path. -/
theorem C10_early_exit_keeps_running (c : Nat) (b : Bool) (h : c ≠ 0) :
    runningAfter b (ActorUnit.start c) = true ∧
      SEv.setRunning false ∉ ActorUnit.start c ∧
      SEv.panicked "actor exited early" ∈ ActorUnit.start c := by
  refine ⟨?_, ?_, ?_⟩ <;> simp [ActorUnit.start, h, runningAfter]

/-- C10 witness: the theorem applied at the concrete observed count 2,
starting from flag value false. -/
theorem C10_early_exit_keeps_running_witness :
    (2 : Nat) ≠ 0 ∧
      (runningAfter false (ActorUnit.start 2) = true ∧
        SEv.setRunning false ∉ ActorUnit.start 2 ∧
        SEv.panicked "actor exited early" ∈ ActorUnit.start 2) :=
  ⟨by decide, C10_early_exit_keeps_running 2 false (by decide)⟩

/-- C5 counterexample: at the concrete state (running, count) = (false, 0),
`release()` is not detected as a contract violation and does not fail fast —
its whole trace is the count update under the lock, and the wrapping
`fetch_sub` silently sets the count to the large value 2^64 - 1. -/
theorem C5_counterexample :
    (ActorUnit.release ⟨false, 0⟩).1.count = USIZE - 1 ∧
      (ActorUnit.release ⟨false, 0⟩).2 = [Ev.lockAcq, Ev.countSub 0, Ev.lockRel] := by
  decide

/-- C5 amended: `release()` with the count already 0 is not detected; the
wrapping `fetch_sub` silently sets the count to 2^64 - 1, no stop request is
issued, and the flag is untouched (pairing is instead a caller obligation,
the SAFETY contract of the unsafe `Unit` trait methods). -/
theorem C5_unpaired_release_wraps (s : ActorUnit) (h : s.count = 0) :
    (ActorUnit.release s).1.count = USIZE - 1 ∧
      (ActorUnit.release s).1.running = s.running ∧
      (ActorUnit.release s).2 = [Ev.lockAcq, Ev.countSub 0, Ev.lockRel] := by
  obtain ⟨r, k⟩ := s
  simp only at h
  subst h
  rw [release_ne_one r 0 (by decide)]
  have h0 : 0 < USIZE := USIZE_pos
  simp [Nat.mod_eq_of_lt (show USIZE - 1 < USIZE by omega)]

/-- C5 witness: the amended theorem applied at the concrete state
(running, count) = (true, 0). -/
theorem C5_unpaired_release_wraps_witness :
    (ActorUnit.mk true 0).count = 0 ∧
      ((ActorUnit.release ⟨true, 0⟩).1.count = USIZE - 1 ∧
        (ActorUnit.release ⟨true, 0⟩).1.running = (ActorUnit.mk true 0).running ∧
        (ActorUnit.release ⟨true, 0⟩).2 = [Ev.lockAcq, Ev.countSub 0, Ev.lockRel]) :=
  ⟨by decide, C5_unpaired_release_wraps ⟨true, 0⟩ (by decide)⟩

/-- C6 counterexample: at the concrete state (running, count) = (false, 0)
— the first acquire, the activation case the claim describes — the
spin-wait for `running` happens strictly before the lock release: the lock
is held for the full activation wait, not only for the count mutation plus
the launch decision (the guard is dropped only after `spawn()` returns). -/
theorem C6_counterexample :
    (ActorUnit.acquire ⟨false, 0⟩).2 =
        [Ev.lockAcq, Ev.countAdd 0, Ev.launch, Ev.waitRunning true, Ev.lockRel] ∧
      Ev.waitRunning true ∈ (ActorUnit.acquire ⟨false, 0⟩).2 ∧
      ¬ (ActorUnit.acquire ⟨false, 0⟩).2.indexOf Ev.lockRel <
          (ActorUnit.acquire ⟨false, 0⟩).2.indexOf (Ev.waitRunning true) := by
  decide

/-- C6 amended: the exclusivity lock is held for the whole of every
`acquire()`/`release()` call — the lock-release event is the last event of
every call trace, so it covers the activation/deactivation spin-wait when
one occurs.  An `acquire()` whose pre-increment count is positive performs
no spin-wait of its own (its trace is just the count update between lock
acquire and lock release), but it must still take the lock, so it runs only
after any in-progress activation holding the lock completes. -/
theorem C6_lock_spans_wait (s : ActorUnit) (h : 0 < s.count) :
    (ActorUnit.acquire s).2 = [Ev.lockAcq, Ev.countAdd s.count, Ev.lockRel] ∧
      ∀ t : ActorUnit,
        (ActorUnit.acquire t).2.head? = some Ev.lockAcq ∧
        lastEv (ActorUnit.acquire t).2 = some Ev.lockRel ∧
        (ActorUnit.release t).2.head? = some Ev.lockAcq ∧
        lastEv (ActorUnit.release t).2 = some Ev.lockRel := by
  constructor
  · obtain ⟨r, k⟩ := s
    rw [acquire_pos r k (by simpa using Nat.pos_iff_ne_zero.mp h)]
  · intro t
    obtain ⟨r, k⟩ := t
    refine ⟨?_, ?_, ?_, ?_⟩
    · by_cases hk : k = 0
      · subst hk; rw [acquire_zero]; rfl
      · rw [acquire_pos r k hk]; rfl
    · by_cases hk : k = 0
      · subst hk; rw [acquire_zero]; simp [lastEv]
      · rw [acquire_pos r k hk]; simp [lastEv]
    · by_cases hk : k = 1
      · subst hk; rw [release_one]; rfl
      · rw [release_ne_one r k hk]; rfl
    · by_cases hk : k = 1
      · subst hk; rw [release_one]; simp [lastEv]
      · rw [release_ne_one r k hk]; simp [lastEv]

/-- C6 witness: the amended theorem applied at the concrete state
(running, count) = (true, 3). -/
theorem C6_lock_spans_wait_witness :
    0 < (ActorUnit.mk true 3).count ∧
      ((ActorUnit.acquire ⟨true, 3⟩).2 =
          [Ev.lockAcq, Ev.countAdd (ActorUnit.mk true 3).count, Ev.lockRel] ∧
        ∀ t : ActorUnit,
          (ActorUnit.acquire t).2.head? = some Ev.lockAcq ∧
          lastEv (ActorUnit.acquire t).2 = some Ev.lockRel ∧
          (ActorUnit.release t).2.head? = some Ev.lockAcq ∧
          lastEv (ActorUnit.release t).2 = some Ev.lockRel) :=
  ⟨by decide, C6_lock_spans_wait ⟨true, 3⟩ (by decide)⟩

/-- C7: evaluation of the code at the failing scenario (the first
`acquire()`, i.e. the 0→1 transition): the call's whole trace is lock,
count update, launch, activation wait, unlock — no prepare step of any kind
is run before the launch.  The `Actor` trait of main.rs declares no
prepare/setup member, so the hook the spec (and the repository's own
`check_no_race_with_setup` test) relies on does not exist in the code. -/
theorem C7_no_prepare_before_launch :
    (ActorUnit.acquire ⟨false, 0⟩).2 =
        [Ev.lockAcq, Ev.countAdd 0, Ev.launch, Ev.waitRunning true, Ev.lockRel] ∧
      Ev.prepare ∉ (ActorUnit.acquire ⟨false, 0⟩).2 := by
  decide

/-- C8: for the chain built by `Blueprint::new(U1).register(U2).register(U3)`
(members named by ids 1, 2, 3), `acquire()` reaches the members in the
order U3, U2, U1, and `release()` reaches them in that same order U3, U2,
U1 — not the reverse. -/
theorem C8_chain_order :
    (Blueprint.register (Blueprint.register (Blueprint.new (UnitTree.leaf 1))
          (UnitTree.leaf 2)) (UnitTree.leaf 3)).acquireOrder = [3, 2, 1] ∧
      (Blueprint.register (Blueprint.register (Blueprint.new (UnitTree.leaf 1))
          (UnitTree.leaf 2)) (UnitTree.leaf 3)).releaseOrder = [3, 2, 1] := by
  decide

/-- C9: a chain of exactly one unit (`Blueprint::new(u)`) is observationally
identical to the bare unit: every sequence of acquire/release calls on the
one-unit chain performs exactly the same member operations, in the same
order, as the same sequence on the unit itself. -/
theorem C9_singleton_chain_id (u : UnitTree) (ops : List Op) :
    UnitTree.runSeq (Blueprint.new u) ops = UnitTree.runSeq u ops := by
  simp [UnitTree.runSeq, Blueprint.new, UnitTree.acquireOrder, UnitTree.releaseOrder]

/-! ### Sequences of acquire/release calls (for the count-correctness claim) -/

theorem runOp_acq (s : ActorUnit) : ActorUnit.runOp s Op.acq = ActorUnit.acquire s := rfl

theorem runOp_rel (s : ActorUnit) : ActorUnit.runOp s Op.rel = ActorUnit.release s := rfl

theorem runOps_cons (s : ActorUnit) (o : Op) (os : List Op) :
    ActorUnit.runOps s (o :: os) =
      ((ActorUnit.runOps (ActorUnit.runOp s o).1 os).1,
       (ActorUnit.runOp s o).2 ++ (ActorUnit.runOps (ActorUnit.runOp s o).1 os).2) := rfl

theorem runOps_append (s : ActorUnit) (l1 l2 : List Op) :
    ActorUnit.runOps s (l1 ++ l2) =
      ((ActorUnit.runOps (ActorUnit.runOps s l1).1 l2).1,
       (ActorUnit.runOps s l1).2 ++ (ActorUnit.runOps (ActorUnit.runOps s l1).1 l2).2) := by
  induction l1 generalizing s with
  | nil => simp [ActorUnit.runOps]
  | cons o os ih => simp [ActorUnit.runOps, ih]

theorem runOps_append_fst (s : ActorUnit) (l1 l2 : List Op) :
    (ActorUnit.runOps s (l1 ++ l2)).1 =
      (ActorUnit.runOps (ActorUnit.runOps s l1).1 l2).1 := by
  rw [runOps_append]

theorem runOps_append_snd (s : ActorUnit) (l1 l2 : List Op) :
    (ActorUnit.runOps s (l1 ++ l2)).2 =
      (ActorUnit.runOps s l1).2 ++
        (ActorUnit.runOps (ActorUnit.runOps s l1).1 l2).2 := by
  rw [runOps_append]

/-- Acquires from a positive count only bump the count: no launch, no stop. -/
theorem runOps_acq_phase (m : Nat) :
    ∀ (k : Nat) (r : Bool), 1 ≤ k → k < USIZE → k + m ≤ USIZE →
    (ActorUnit.runOps ⟨r, k⟩ (List.replicate m Op.acq)).1 = ⟨r, (k + m) % USIZE⟩ ∧
      launches (ActorUnit.runOps ⟨r, k⟩ (List.replicate m Op.acq)).2 = 0 ∧
      stops (ActorUnit.runOps ⟨r, k⟩ (List.replicate m Op.acq)).2 = 0 := by
  induction m with
  | zero =>
    intro k r h1 h2 h3
    simp [ActorUnit.runOps, launches, stops, Nat.mod_eq_of_lt h2]
  | succ n ih =>
    intro k r h1 h2 h3
    rw [List.replicate_succ]
    simp only [ActorUnit.runOps, ActorUnit.runOp]
    rw [acquire_pos r k (by omega)]
    by_cases hk : k + 1 = USIZE
    · have hn : n = 0 := by omega
      subst hn
      simp only [List.replicate, ActorUnit.runOps]
      refine ⟨?_, ?_, ?_⟩ <;>
        simp [launches_append, stops_append, launches, stops]
    · have hlt : k + 1 < USIZE := by omega
      rw [Nat.mod_eq_of_lt hlt]
      obtain ⟨ih1, ih2, ih3⟩ := ih (k + 1) r (by omega) hlt (by omega)
      refine ⟨?_, ?_, ?_⟩
      · rw [ih1]
        have : k + 1 + n = k + (n + 1) := by omega
        rw [this]
      · rw [launches_append, ih2]; simp [launches]
      · rw [stops_append, ih3]; simp [stops]

/-- Releasing a positive in-range count down to zero: exactly one stop
request (on the 1→0 transition), no launch, and the flag ends false. -/
theorem runOps_rel_phase (k : Nat) :
    ∀ r : Bool, 1 ≤ k → k < USIZE →
    (ActorUnit.runOps ⟨r, k⟩ (List.replicate k Op.rel)).1 = ⟨false, 0⟩ ∧
      launches (ActorUnit.runOps ⟨r, k⟩ (List.replicate k Op.rel)).2 = 0 ∧
      stops (ActorUnit.runOps ⟨r, k⟩ (List.replicate k Op.rel)).2 = 1 := by
  induction k with
  | zero => intro r h1 h2; omega
  | succ n ih =>
    intro r h1 h2
    rw [List.replicate_succ]
    simp only [ActorUnit.runOps, ActorUnit.runOp]
    by_cases hn : n = 0
    · subst hn
      rw [release_one r]
      simp only [List.replicate, ActorUnit.runOps]
      refine ⟨?_, ?_, ?_⟩ <;>
        simp [launches_append, stops_append, launches, stops]
    · rw [release_ne_one r (n + 1) (by omega)]
      have hc : (n + 1 + (USIZE - 1)) % USIZE = n := by
        have h0 : 0 < USIZE := USIZE_pos
        rw [show n + 1 + (USIZE - 1) = n + USIZE by omega, Nat.add_mod_right,
          Nat.mod_eq_of_lt (by omega)]
      rw [hc]
      obtain ⟨ih1, ih2, ih3⟩ := ih r (by omega) (by omega)
      refine ⟨ih1, ?_, ?_⟩
      · rw [launches_append, ih2]; simp [launches]
      · rw [stops_append, ih3]; simp [stops]

/-- The acquire phase started from the inactive state: one launch on the
0→1 transition, none afterwards, flag true, count `(M + 1) % USIZE`. -/
theorem runOps_acq_from_zero (M : Nat) (hM : M + 1 ≤ USIZE) :
    (ActorUnit.runOps ⟨false, 0⟩ (List.replicate (M + 1) Op.acq)).1 =
        ⟨true, (M + 1) % USIZE⟩ ∧
      launches (ActorUnit.runOps ⟨false, 0⟩ (List.replicate (M + 1) Op.acq)).2 = 1 ∧
      stops (ActorUnit.runOps ⟨false, 0⟩ (List.replicate (M + 1) Op.acq)).2 = 0 := by
  rw [List.replicate_succ]
  simp only [ActorUnit.runOps, ActorUnit.runOp]
  rw [acquire_zero false]
  obtain ⟨p1, p2, p3⟩ := runOps_acq_phase M 1 true (le_refl 1) one_lt_USIZE (by omega)
  refine ⟨?_, ?_, ?_⟩
  · rw [p1]
    have : 1 + M = M + 1 := by omega
    rw [this]
  · rw [launches_append, p2]; simp [launches]
  · rw [stops_append, p3]; simp [stops]

/-- The release phase started from the active state with count `N % USIZE`
(the count left by `N` acquires): exactly one stop request, no launch, and
the unit ends inactive, for every `1 ≤ N ≤ USIZE`. -/
theorem runOps_rel_from (N : Nat) (h1 : 1 ≤ N) (h2 : N ≤ USIZE) :
    (ActorUnit.runOps ⟨true, N % USIZE⟩ (List.replicate N Op.rel)).1 = ⟨false, 0⟩ ∧
      launches (ActorUnit.runOps ⟨true, N % USIZE⟩ (List.replicate N Op.rel)).2 = 0 ∧
      stops (ActorUnit.runOps ⟨true, N % USIZE⟩ (List.replicate N Op.rel)).2 = 1 := by
  by_cases hN : N < USIZE
  · rw [Nat.mod_eq_of_lt hN]
    exact runOps_rel_phase N true h1 hN
  · have hEq : N = USIZE := by omega
    subst hEq
    have h0 : 1 < USIZE := one_lt_USIZE
    rw [Nat.mod_self]
    have hsplit : List.replicate USIZE Op.rel
        = List.replicate 1 Op.rel ++ List.replicate (USIZE - 1) Op.rel := by
      rw [← List.replicate_add, show 1 + (USIZE - 1) = USIZE by omega]
    have hone : ActorUnit.runOps ⟨true, 0⟩ (List.replicate 1 Op.rel) =
        (⟨true, USIZE - 1⟩, [Ev.lockAcq, Ev.countSub 0, Ev.lockRel]) := by
      have hc : (0 + (USIZE - 1)) % USIZE = USIZE - 1 := by
        rw [Nat.zero_add, Nat.mod_eq_of_lt (by omega)]
      rw [List.replicate_one, runOps_cons, runOp_rel, release_ne_one true 0 (by omega)]
      simp [ActorUnit.runOps, hc]
    have hone_fst : (ActorUnit.runOps ⟨true, 0⟩ (List.replicate 1 Op.rel)).1 =
        ⟨true, USIZE - 1⟩ := by
      rw [hone]
    have hone_snd : (ActorUnit.runOps ⟨true, 0⟩ (List.replicate 1 Op.rel)).2 =
        [Ev.lockAcq, Ev.countSub 0, Ev.lockRel] := by
      rw [hone]
    obtain ⟨p1, p2, p3⟩ := runOps_rel_phase (USIZE - 1) true (by omega) (by omega)
    rw [hsplit]
    refine ⟨?_, ?_, ?_⟩
    · rw [runOps_append_fst, hone_fst]
      exact p1
    · rw [runOps_append_snd, hone_fst, hone_snd, launches_append, p2]
      simp [launches]
    · rw [runOps_append_snd, hone_fst, hone_snd, stops_append, p3]
      simp [stops]

/-- `release` calls never launch anything, whatever the state. -/
theorem launches_rel_ops (n : Nat) : ∀ s : ActorUnit,
    launches (ActorUnit.runOps s (List.replicate n Op.rel)).2 = 0 := by
  induction n with
  | zero => intro s; simp [ActorUnit.runOps, launches]
  | succ m ih =>
    intro s
    rw [List.replicate_succ]
    simp only [ActorUnit.runOps, ActorUnit.runOp]
    rw [launches_append, ih]
    obtain ⟨r, k⟩ := s
    by_cases hk : k = 1
    · subst hk; rw [release_one r]; simp [launches]
    · rw [release_ne_one r k hk]; simp [launches]

/-- C1 (amended: `1 ≤ N ≤ 2^64`): for a sequence of N acquire calls
followed by N matched release calls on one `ActorUnit` starting inactive,
after the last release the `running` flag is false, the count is 0, and
exactly one launch (`Actor::spawn`) and exactly one stop request
(`Actor::abort`) occurred over the whole sequence.  The bound is forced by
the wrapping 64-bit count (see the counterexample at `N = 2^64 + 1`). -/
theorem C1_count_correctness (N : Nat) (h1 : 1 ≤ N) (h2 : N ≤ USIZE) :
    (ActorUnit.runOps ⟨false, 0⟩
        (List.replicate N Op.acq ++ List.replicate N Op.rel)).1.running = false ∧
      (ActorUnit.runOps ⟨false, 0⟩
        (List.replicate N Op.acq ++ List.replicate N Op.rel)).1.count = 0 ∧
      launches (ActorUnit.runOps ⟨false, 0⟩
        (List.replicate N Op.acq ++ List.replicate N Op.rel)).2 = 1 ∧
      stops (ActorUnit.runOps ⟨false, 0⟩
        (List.replicate N Op.acq ++ List.replicate N Op.rel)).2 = 1 := by
  obtain ⟨M, rfl⟩ : ∃ M, N = M + 1 := ⟨N - 1, by omega⟩
  obtain ⟨a1, a2, a3⟩ := runOps_acq_from_zero M (by omega)
  obtain ⟨r1, r2, r3⟩ := runOps_rel_from (M + 1) (by omega) h2
  refine ⟨?_, ?_, ?_, ?_⟩
  · rw [runOps_append_fst, a1, r1]
  · rw [runOps_append_fst, a1, r1]
  · rw [runOps_append_snd, launches_append, a1, a2, r2]
  · rw [runOps_append_snd, stops_append, a1, a3, r3]

/-- C1 witness: the amended theorem applied at the concrete pair count
N = 1 (one acquire, one release). -/
theorem C1_count_correctness_witness :
    (1 ≤ 1 ∧ 1 ≤ USIZE) ∧
      ((ActorUnit.runOps ⟨false, 0⟩
          (List.replicate 1 Op.acq ++ List.replicate 1 Op.rel)).1.running = false ∧
        (ActorUnit.runOps ⟨false, 0⟩
          (List.replicate 1 Op.acq ++ List.replicate 1 Op.rel)).1.count = 0 ∧
        launches (ActorUnit.runOps ⟨false, 0⟩
          (List.replicate 1 Op.acq ++ List.replicate 1 Op.rel)).2 = 1 ∧
        stops (ActorUnit.runOps ⟨false, 0⟩
          (List.replicate 1 Op.acq ++ List.replicate 1 Op.rel)).2 = 1) :=
  ⟨⟨by decide, by decide⟩, C1_count_correctness 1 (by decide) (by decide)⟩

/-- C1 counterexample: the claim quantifies over every N ≥ 1, but the count
is a wrapping 64-bit `usize`.  At the concrete input N = 2^64 + 1, after
2^64 acquires the count has wrapped back to 0, so acquire number 2^64 + 1
reads 0 from `fetch_add` and issues a second launch: over the whole matched
sequence the number of launches is 2, not exactly one. -/
theorem C1_counterexample :
    launches (ActorUnit.runOps ⟨false, 0⟩
        (List.replicate (USIZE + 1) Op.acq ++ List.replicate (USIZE + 1) Op.rel)).2
      = 2 ∧
      ¬ launches (ActorUnit.runOps ⟨false, 0⟩
        (List.replicate (USIZE + 1) Op.acq ++ List.replicate (USIZE + 1) Op.rel)).2
      = 1 := by
  have h0 : 1 < USIZE := one_lt_USIZE
  have hrep : List.replicate (USIZE + 1) Op.acq
      = List.replicate (USIZE - 1 + 1) Op.acq ++ List.replicate 1 Op.acq := by
    rw [← List.replicate_add, show USIZE - 1 + 1 + 1 = USIZE + 1 by omega]
  obtain ⟨a1, a2, a3⟩ := runOps_acq_from_zero (USIZE - 1) (by omega)
  have hmod : (USIZE - 1 + 1) % USIZE = 0 := by
    rw [show USIZE - 1 + 1 = USIZE by omega, Nat.mod_self]
  rw [hmod] at a1
  have hB : ActorUnit.runOps ⟨true, 0⟩ (List.replicate 1 Op.acq) =
      (⟨true, 1⟩,
       [Ev.lockAcq, Ev.countAdd 0, Ev.launch, Ev.waitRunning true, Ev.lockRel]) := by
    rw [List.replicate_one, runOps_cons, runOp_acq, acquire_zero true]
    simp [ActorUnit.runOps]
  have hB_fst : (ActorUnit.runOps ⟨true, 0⟩ (List.replicate 1 Op.acq)).1 =
      ⟨true, 1⟩ := by
    rw [hB]
  have hB_snd : (ActorUnit.runOps ⟨true, 0⟩ (List.replicate 1 Op.acq)).2 =
      [Ev.lockAcq, Ev.countAdd 0, Ev.launch, Ev.waitRunning true, Ev.lockRel] := by
    rw [hB]
  have key : launches (ActorUnit.runOps ⟨false, 0⟩
      (List.replicate (USIZE + 1) Op.acq ++ List.replicate (USIZE + 1) Op.rel)).2
      = 2 := by
    rw [hrep, runOps_append_snd, launches_append, runOps_append_fst,
      runOps_append_snd, launches_append, a1, a2, hB_fst, hB_snd,
      launches_rel_ops (USIZE + 1) ⟨true, 1⟩]
    simp [launches]
  exact ⟨key, by rw [key]; omega⟩
